import Mathlib

/-!
Shallow embedding of the Tetris game engine from `src/tetris-game.tsx`.

The grid is a list of rows of cells, a cell being a natural number
(`0` = empty, nonzero = filled).  Piece positions use integer
coordinates because a piece may sit partially above the visible grid
(`y < 0`).  React state updates are modelled by explicit state passing:
`movePieceDown` takes the freshly created next piece as a parameter
(randomness is injected), and reads of the `board`/`level` React state
inside a callback are reads of the state value captured when the
callback was created, exactly as the closures in the source do.
-/

namespace Tetris

/-- Cell values of the grid: `0` empty, `1` filled (`2` is display-only). -/
abbrev Board := List (List Nat)

def BOARD_WIDTH : Nat := 10

def BOARD_HEIGHT : Nat := 20

def EMPTY_BOARD : Board := List.replicate BOARD_HEIGHT (List.replicate BOARD_WIDTH 0)

/-- A falling piece: current shape matrix, display color, top-left offset
into the grid (`x`, `y`), both possibly negative. -/
structure Piece where
  shape : List (List Nat)
  color : String
  position : Int × Int
deriving DecidableEq

/-- The component state of `TetrisGame`: the board and the React state
variables `currentPiece`, `score`, `lines`, `level`, `gameOver`, `isPaused`. -/
structure GameState where
  board : Board
  currentPiece : Option Piece
  score : Nat
  lines : Nat
  level : Nat
  gameOver : Bool
  isPaused : Bool
deriving DecidableEq

/-- `board[y][x]` for integer indices, `0` (empty) when out of range;
the source only reads the board after guarding `y ≥ 0` and `0 ≤ x < W`. -/
def cellAt (board : Board) (y x : Int) : Nat :=
  (board.getD y.toNat []).getD x.toNat 0

/-- Entry `(i, j)` of a matrix, `0` when out of range. -/
def get2 (b : Board) (i j : Nat) : Nat :=
  (b.getD i []).getD j 0

/-- The seven tetromino variants. -/
inductive TetrominoType where
  | I | O | T | S | Z | J | L
deriving DecidableEq

/-- Shape table `TETROMINOES[t].shape` from the source. -/
def tetrominoShape : TetrominoType → List (List Nat)
  | .I => [[0,0,0,0],[1,1,1,1],[0,0,0,0],[0,0,0,0]]
  | .O => [[1,1],[1,1]]
  | .T => [[0,1,0],[1,1,1],[0,0,0]]
  | .S => [[0,1,1],[1,1,0],[0,0,0]]
  | .Z => [[1,1,0],[0,1,1],[0,0,0]]
  | .J => [[1,0,0],[1,1,1],[0,0,0]]
  | .L => [[0,0,1],[1,1,1],[0,0,0]]

/-- Color table `TETROMINOES[t].color` from the source. -/
def tetrominoColor : TetrominoType → String
  | .I => "#00f0f0"
  | .O => "#f0f000"
  | .T => "#a000f0"
  | .S => "#00f000"
  | .Z => "#f00000"
  | .J => "#0000f0"
  | .L => "#f0a000"

/-- `createRandomPiece` with the random choice injected: spawn at
`x = floor(W/2) - floor(shape[0].length/2)`, `y = 0`. -/
def createPiece (t : TetrominoType) : Piece :=
  { shape := tetrominoShape t
    color := tetrominoColor t
    position := ((BOARD_WIDTH / 2 : Nat) - (((tetrominoShape t).headD []).length / 2 : Nat), 0) }

/-- `isValidPosition(piece, newPosition, newShape?)`: every set cell of the
shape (the override `newShape` if supplied, else the piece's shape) must map
to a column in `[0, W)`, a row `< H`, and, when its row is `≥ 0`, onto an
empty board cell. -/
def isValidPosition (board : Board) (piece : Piece) (newPosition : Int × Int)
    (newShape : Option (List (List Nat))) : Bool :=
  let shape := newShape.getD piece.shape
  (List.range shape.length).all fun y =>
    (List.range ((shape.getD y []).length)).all fun x =>
      if (shape.getD y []).getD x 0 ≠ 0 then
        let newX : Int := newPosition.1 + (x : Int)
        let newY : Int := newPosition.2 + (y : Int)
        if newX < 0 ∨ (BOARD_WIDTH : Int) ≤ newX ∨ (BOARD_HEIGHT : Int) ≤ newY then
          false
        else if 0 ≤ newY ∧ cellAt board newY newX ≠ 0 then
          false
        else
          true
      else
        true

/-- `rotatePiece(shape)`: `shape[0].map((_, index) => shape.map(row => row[index]).reverse())`,
the 90°-clockwise rotation. -/
def rotatePiece (shape : List (List Nat)) : List (List Nat) :=
  (List.range ((shape.headD []).length)).map fun index =>
    (shape.map fun row => row.getD index 0).reverse

/-- One JavaScript array store `b[y][x] = v` (row index already checked
nonnegative by the caller): a no-op on the cells of the board when the
target coordinate is outside it. -/
def setCell (b : Board) (y : Nat) (x : Int) (v : Nat) : Board :=
  if 0 ≤ x then b.set y ((b.getD y []).set x.toNat v) else b

/-- The body of the double loop of `placePiece` at shape coordinate `(y, x)`:
if the shape cell is set and maps to row `≥ 0`, store `1` there. -/
def placeStep (pos : Int × Int) (shape : List (List Nat)) (b : Board)
    (yx : Nat × Nat) : Board :=
  if (shape.getD yx.1 []).getD yx.2 0 ≠ 0 then
    let boardY : Int := pos.2 + (yx.1 : Int)
    let boardX : Int := pos.1 + (yx.2 : Int)
    if 0 ≤ boardY then setCell b boardY.toNat boardX 1 else b
  else
    b

/-- `placePiece(piece)`: bake the piece into the board, dropping the cells
whose mapped row is negative. -/
def placePiece (board : Board) (piece : Piece) : Board :=
  (List.range piece.shape.length).foldl
    (fun b y =>
      (List.range ((piece.shape.getD y []).length)).foldl
        (fun b2 x => placeStep piece.position piece.shape b2 (y, x)) b)
    board

/-- One unrolling of the `while (newBoard.length < n) newBoard.unshift(row)`
loop of `clearLines`: each iteration re-checks the condition and prepends
one row.  `fuel` bounds the number of iterations (structural recursion);
the loop body grows the board by one row per step, so `n` steps always
suffice when starting below `n`. -/
def padGo (fuel n : Nat) (row : List Nat) (b : Board) : Board :=
  match fuel with
  | 0 => b
  | fuel + 1 => if b.length < n then padGo fuel n row (row :: b) else b

/-- The `while (newBoard.length < BOARD_HEIGHT) newBoard.unshift(emptyRow)`
loop of `clearLines`. -/
def padTo (n : Nat) (row : List Nat) (b : Board) : Board :=
  padGo n n row b

/-- `clearLines(board)`: keep the rows having some empty cell, count the
removed ones against `BOARD_HEIGHT`, pad back to `BOARD_HEIGHT` rows with
empty rows on top. -/
def clearLines (board : Board) : Board × Nat :=
  let newBoard := board.filter fun row => row.any fun cell => cell == 0
  let linesCleared := BOARD_HEIGHT - newBoard.length
  (padTo BOARD_HEIGHT (List.replicate BOARD_WIDTH 0) newBoard, linesCleared)

/-- `movePieceDown` with the piece produced by `createRandomPiece` injected
as `nextPiece`.  The spawn validity check reads the `board` captured by the
`isValidPosition` closure, i.e. the board from before this landing was
merged — `setBoard(clearedBoard)` does not update that closure. -/
def movePieceDown (nextPiece : Piece) (s : GameState) : GameState :=
  match s.currentPiece with
  | none => s
  | some p =>
    if s.gameOver || s.isPaused then s
    else
      let newPosition : Int × Int := (p.position.1, p.position.2 + 1)
      if isValidPosition s.board p newPosition none then
        { s with currentPiece := some { p with position := newPosition } }
      else
        let newBoard := placePiece s.board p
        let cleared := clearLines newBoard
        let s1 : GameState :=
          { s with
            board := cleared.1
            lines := s.lines + cleared.2
            score := s.score + cleared.2 * 100 * s.level }
        if !isValidPosition s.board nextPiece nextPiece.position none then
          { s1 with gameOver := true }
        else
          { s1 with currentPiece := some nextPiece }

/-- The `useEffect` reacting to `lines`: `setLevel(Math.floor(lines / 10) + 1)`. -/
def updateLevel (s : GameState) : GameState :=
  { s with level := s.lines / 10 + 1 }

/-- `handleKeyPress(event)` with the key as a string and, for the
`ArrowDown` path, the injected next piece.  All keys are ignored when there
is no current piece, the game is over, or the game is paused. -/
def handleKeyPress (nextPiece : Piece) (key : String) (s : GameState) : GameState :=
  match s.currentPiece with
  | none => s
  | some p =>
    if s.gameOver || s.isPaused then s
    else if key = "ArrowLeft" then
      let leftPosition : Int × Int := (p.position.1 - 1, p.position.2)
      if isValidPosition s.board p leftPosition none then
        { s with currentPiece := some { p with position := leftPosition } }
      else s
    else if key = "ArrowRight" then
      let rightPosition : Int × Int := (p.position.1 + 1, p.position.2)
      if isValidPosition s.board p rightPosition none then
        { s with currentPiece := some { p with position := rightPosition } }
      else s
    else if key = "ArrowDown" then
      movePieceDown nextPiece s
    else if key = "ArrowUp" ∨ key = " " then
      let rotatedShape := rotatePiece p.shape
      if isValidPosition s.board p p.position (some rotatedShape) then
        { s with currentPiece := some { p with shape := rotatedShape } }
      else s
    else if key = "p" ∨ key = "P" then
      { s with isPaused := !s.isPaused }
    else s

/-- The on-screen pause button: `onClick={() => setIsPaused(!isPaused)}`,
rendered with `disabled={gameOver}`. -/
def pauseButton (s : GameState) : GameState :=
  if s.gameOver then s else { s with isPaused := !s.isPaused }

/-- `startNewGame`: reset every state variable and spawn a first piece. -/
def startNewGame (firstPiece : TetrominoType) : GameState :=
  { board := EMPTY_BOARD
    currentPiece := some (createPiece firstPiece)
    score := 0
    lines := 0
    level := 1
    gameOver := false
    isPaused := false }

/-- A matrix of exactly `R` rows, each of exactly `C` cells. -/
abbrev Rect (R C : Nat) (m : List (List Nat)) : Prop :=
  m.length = R ∧ ∀ row ∈ m, row.length = C

/-- The shape coordinates `(y, x)` visited by the double loop of
`placePiece`, in visiting order. -/
def pieceCoords (shape : List (List Nat)) : List (Nat × Nat) :=
  (List.range shape.length).flatMap fun y =>
    (List.range ((shape.getD y []).length)).map fun x => (y, x)

/-- A landing state for the scoring theorem: an O-piece about to land on a
board whose bottom row is already complete. -/
def landingBoard : Board := List.replicate 19 (List.replicate 10 0) ++ [List.replicate 10 1]

def landingPiece : Piece :=
  { shape := [[1,1],[1,1]], color := "#f0f000", position := (4, 17) }

def landingState : GameState :=
  { board := landingBoard, currentPiece := some landingPiece, score := 50,
    lines := 7, level := 3, gameOver := false, isPaused := false }

/-- A board whose only filled cells sit at row 2, columns 4 and 5, so that
an O-piece at the spawn position lands immediately and its merged cells
occupy the spawn area. -/
def staleBoard : Board :=
  [List.replicate 10 0, List.replicate 10 0, [0,0,0,0,1,1,0,0,0,0]] ++
    List.replicate 17 (List.replicate 10 0)

def stalePiece : Piece :=
  { shape := [[1,1],[1,1]], color := "#f0f000", position := (4, 0) }

def staleState : GameState :=
  { board := staleBoard, currentPiece := some stalePiece, score := 0,
    lines := 0, level := 1, gameOver := false, isPaused := false }

/-- An ordinary paused mid-game state. -/
def pausedState : GameState :=
  { board := EMPTY_BOARD, currentPiece := some (createPiece .T), score := 0,
    lines := 0, level := 1, gameOver := false, isPaused := true }

/-- An ordinary active mid-game state. -/
def activeState : GameState :=
  { board := EMPTY_BOARD, currentPiece := some (createPiece .T), score := 0,
    lines := 0, level := 1, gameOver := false, isPaused := false }

/-- A second paused state, used to instantiate the paused-tick theorem. -/
def pausedTickState : GameState :=
  { board := EMPTY_BOARD, currentPiece := some (createPiece .J), score := 300,
    lines := 4, level := 1, gameOver := false, isPaused := true }

/-- A state between landing and respawn: no current piece. -/
def pieceLessState : GameState :=
  { board := EMPTY_BOARD, currentPiece := none, score := 100,
    lines := 1, level := 1, gameOver := false, isPaused := false }

/-- C9: while the game is paused, a tick (`movePieceDown`, the softDrop /
automatic-descent handler) returns the state unchanged: board, current
piece, score, lines, level and flags are all identical. -/
theorem movePieceDown_paused_noop (nextPiece : Piece) (s : GameState)
    (h : s.isPaused = true) : movePieceDown nextPiece s = s := by
  cases hc : s.currentPiece <;> simp [movePieceDown, hc, h]

theorem movePieceDown_paused_noop_witness :
    movePieceDown (createPiece .I) pausedTickState = pausedTickState :=
  movePieceDown_paused_noop (createPiece .I) pausedTickState rfl

/-- C10: when there is no current piece, or the game is over, a tick
(`movePieceDown`) is a complete no-op: no merge, no clear, no score or
lines update, no spawn. -/
theorem movePieceDown_noPiece_orOver_noop (nextPiece : Piece) (s : GameState)
    (h : s.currentPiece = none ∨ s.gameOver = true) :
    movePieceDown nextPiece s = s := by
  rcases h with h | h
  · simp [movePieceDown, h]
  · cases hc : s.currentPiece <;> simp [movePieceDown, hc, h]

theorem movePieceDown_noPiece_orOver_noop_witness :
    movePieceDown (createPiece .I) pieceLessState = pieceLessState :=
  movePieceDown_noPiece_orOver_noop (createPiece .I) pieceLessState (Or.inl rfl)

/-- C5: the `useEffect` on `lines` sets `level = lines / 10 + 1`; the level
is monotone in `lines`, and `movePieceDown` never decreases `lines`, so the
level never decreases across line-clear events. -/
theorem level_rule (s t : GameState) (nextPiece : Piece) :
    (updateLevel s).level = s.lines / 10 + 1 ∧
    (s.lines ≤ t.lines → (updateLevel s).level ≤ (updateLevel t).level) ∧
    s.lines ≤ (movePieceDown nextPiece s).lines := by
  refine ⟨rfl, fun h => ?_, ?_⟩
  · simpa [updateLevel] using Nat.add_le_add_right (Nat.div_le_div_right h) 1
  · cases hc : s.currentPiece with
    | none => simp [movePieceDown, hc]
    | some p =>
      by_cases hg : (s.gameOver || s.isPaused) = true
      · simp [movePieceDown, hc, hg]
      · by_cases hv : isValidPosition s.board p (p.position.1, p.position.2 + 1) none
        · simp [movePieceDown, hc, hg, hv]
        · by_cases hn : isValidPosition s.board nextPiece nextPiece.position none <;>
            simp [movePieceDown, hc, hg, hv, hn]

theorem level_rule_witness :
    (updateLevel pieceLessState).level = pieceLessState.lines / 10 + 1 ∧
    (pieceLessState.lines ≤ activeState.lines →
      (updateLevel pieceLessState).level ≤ (updateLevel activeState).level) ∧
    pieceLessState.lines ≤ (movePieceDown (createPiece .S) pieceLessState).lines :=
  level_rule pieceLessState activeState (createPiece .S)

/-- C4: at a landing event (current piece present, not game over, not
paused, downward move invalid) where the clear removes `n` rows, the score
grows by exactly `n * 100 * level` — `level` being the value before the
level update triggered by this clear — and `lines` grows by exactly `n`. -/
theorem landing_score_lines (s : GameState) (p nextPiece : Piece)
    (hp : s.currentPiece = some p)
    (hg : s.gameOver = false) (hps : s.isPaused = false)
    (hland : isValidPosition s.board p (p.position.1, p.position.2 + 1) none = false) :
    (movePieceDown nextPiece s).score =
      s.score + (clearLines (placePiece s.board p)).2 * 100 * s.level ∧
    (movePieceDown nextPiece s).lines =
      s.lines + (clearLines (placePiece s.board p)).2 := by
  by_cases hn : isValidPosition s.board nextPiece nextPiece.position none <;>
    simp [movePieceDown, hp, hg, hps, hland, hn]

theorem landing_score_lines_witness :
    (movePieceDown (createPiece .O) landingState).score =
      landingState.score + (clearLines (placePiece landingState.board landingPiece)).2 * 100 * landingState.level ∧
    (movePieceDown (createPiece .O) landingState).lines =
      landingState.lines + (clearLines (placePiece landingState.board landingPiece)).2 :=
  landing_score_lines landingState landingPiece (createPiece .O) rfl rfl rfl (by decide)

/-- C7 counterexample: in a paused mid-game state the pause key is ignored —
`handleKeyPress` returns early on `isPaused`, so the toggle does not return
the state to Active, contradicting the claim that the pause toggle is
accepted in the Paused state. -/
theorem pause_key_ignored_while_paused :
    pausedState.isPaused = true ∧
    handleKeyPress (createPiece .O) "p" pausedState = pausedState ∧
    (handleKeyPress (createPiece .O) "p" pausedState).isPaused = true := by
  refine ⟨rfl, ?_, ?_⟩ <;> rfl

/-- C7 amended: the pause key is accepted only in the Active state (a
current piece present, not game over, not paused), where it sets the paused
flag; while Paused, the key handler ignores every key, so the pause key
does not return the state to Active. -/
theorem pause_toggle_amended :
    (∀ (nextPiece : Piece) (s : GameState) (p : Piece),
      s.currentPiece = some p → s.gameOver = false → s.isPaused = false →
        handleKeyPress nextPiece "p" s = { s with isPaused := true }) ∧
    (∀ (nextPiece : Piece) (key : String) (s : GameState),
      s.isPaused = true → handleKeyPress nextPiece key s = s) := by
  constructor
  · intro nextPiece s p hp hg hps
    simp [handleKeyPress, hp, hg, hps]
  · intro nextPiece key s h
    cases hc : s.currentPiece <;> simp [handleKeyPress, hc, h]

theorem pause_toggle_amended_witness :
    handleKeyPress (createPiece .O) "p" activeState = { activeState with isPaused := true } ∧
    handleKeyPress (createPiece .O) "ArrowLeft" pausedTickState = pausedTickState :=
  ⟨pause_toggle_amended.1 (createPiece .O) activeState (createPiece .T) rfl rfl rfl,
   pause_toggle_amended.2 (createPiece .O) "ArrowLeft" pausedTickState rfl⟩

/-- C8: demonstration of the stale-closure bug at a concrete landing.  The
O-piece lands and its merged cells fill the spawn area, so the next O-piece
is invalid at its spawn position against the resulting (current) grid; yet
`movePieceDown` runs the spawn check against the `board` captured by the
`isValidPosition` closure — the grid from before the merge — so it installs
the colliding piece and does not set `gameOver`. -/
theorem movePieceDown_stale_spawn_check :
    isValidPosition (movePieceDown (createPiece .O) staleState).board
        (createPiece .O) (createPiece .O).position none = false ∧
    (movePieceDown (createPiece .O) staleState).gameOver = false ∧
    (movePieceDown (createPiece .O) staleState).currentPiece = some (createPiece .O) := by
  refine ⟨?_, ?_, ?_⟩ <;> decide

/-- C2: `isValidPosition` accepts iff every set cell of the effective shape
(the override if supplied, else the piece's shape) maps to a column in
`[0, W)`, a row `< H` (negative rows permitted), and onto an empty board
cell whenever its row is `≥ 0`.  The embedding is a pure function, so it
has no effect on the board or the piece. -/
theorem isValidPosition_iff (board : Board) (piece : Piece) (pos : Int × Int)
    (newShape : Option (List (List Nat))) :
    isValidPosition board piece pos newShape = true ↔
      ∀ y, y < (newShape.getD piece.shape).length →
        ∀ x, x < (((newShape.getD piece.shape).getD y []).length) →
          ((newShape.getD piece.shape).getD y []).getD x 0 ≠ 0 →
            0 ≤ pos.1 + (x : Int) ∧ pos.1 + (x : Int) < (BOARD_WIDTH : Int) ∧
            pos.2 + (y : Int) < (BOARD_HEIGHT : Int) ∧
            (0 ≤ pos.2 + (y : Int) →
              cellAt board (pos.2 + (y : Int)) (pos.1 + (x : Int)) = 0) := by
  simp only [isValidPosition, List.all_eq_true, List.mem_range]
  constructor
  · intro h y hy x hx hcell
    have hb := h y hy x hx
    rw [if_pos hcell] at hb
    by_cases hA : (pos.1 + (x : Int) < 0 ∨ (BOARD_WIDTH : Int) ≤ pos.1 + (x : Int) ∨
        (BOARD_HEIGHT : Int) ≤ pos.2 + (y : Int))
    · rw [if_pos hA] at hb
      exact absurd hb (by simp)
    · rw [if_neg hA] at hb
      by_cases hB : (0 ≤ pos.2 + (y : Int) ∧
          cellAt board (pos.2 + (y : Int)) (pos.1 + (x : Int)) ≠ 0)
      · rw [if_pos hB] at hb
        exact absurd hb (by simp)
      · push_neg at hA hB
        exact ⟨by omega, by omega, by omega, hB⟩
  · intro h y hy x hx
    by_cases hcell : ((newShape.getD piece.shape).getD y []).getD x 0 ≠ 0
    · rw [if_pos hcell]
      obtain ⟨h1, h2, h3, h4⟩ := h y hy x hx hcell
      rw [if_neg (by omega), if_neg (by rintro ⟨hge, hne⟩; exact hne (h4 hge))]
    · rw [if_neg hcell]

theorem isValidPosition_iff_witness :
    ∀ y, y < ((some (tetrominoShape .O)).getD (createPiece .T).shape).length →
      ∀ x, x < ((((some (tetrominoShape .O)).getD (createPiece .T).shape).getD y []).length) →
        (((some (tetrominoShape .O)).getD (createPiece .T).shape).getD y []).getD x 0 ≠ 0 →
          0 ≤ (4 : Int) + (x : Int) ∧ (4 : Int) + (x : Int) < (BOARD_WIDTH : Int) ∧
          (0 : Int) + (y : Int) < (BOARD_HEIGHT : Int) ∧
          (0 ≤ (0 : Int) + (y : Int) →
            cellAt EMPTY_BOARD ((0 : Int) + (y : Int)) ((4 : Int) + (x : Int)) = 0) :=
  (isValidPosition_iff EMPTY_BOARD (createPiece .T) ((4 : Int), (0 : Int))
    (some (tetrominoShape .O))).mp (by decide)

lemma headD_length_of_rect {R C : Nat} {m : List (List Nat)}
    (h : Rect R C m) (hR : 1 ≤ R) : (m.headD []).length = C := by
  obtain ⟨hlen, hrow⟩ := h
  cases m with
  | nil => simp at hlen; omega
  | cons r rest => exact hrow r (List.mem_cons_self r rest)

lemma rotatePiece_length {R C : Nat} {m : List (List Nat)}
    (h : Rect R C m) (hR : 1 ≤ R) : (rotatePiece m).length = C := by
  simp only [rotatePiece, List.length_map, List.length_range]
  exact headD_length_of_rect h hR

lemma rotatePiece_rect {R C : Nat} {m : List (List Nat)}
    (h : Rect R C m) (hR : 1 ≤ R) : Rect C R (rotatePiece m) := by
  refine ⟨rotatePiece_length h hR, ?_⟩
  intro row hrow
  simp only [rotatePiece, List.mem_map, List.mem_range] at hrow
  obtain ⟨i, _, rfl⟩ := hrow
  simp [h.1]

lemma rotatePiece_get2 {R C : Nat} {m : List (List Nat)}
    (h : Rect R C m) (hR : 1 ≤ R) {i j : Nat} (hi : i < C) (hj : j < R) :
    get2 (rotatePiece m) i j = get2 m (R - 1 - j) i := by
  obtain ⟨hmR, hrowlen⟩ := h
  have hrow : (rotatePiece m).getD i [] = (m.map fun row => row.getD i 0).reverse := by
    rw [List.getD_eq_getElem (rotatePiece m) []
      (by rw [rotatePiece_length ⟨hmR, hrowlen⟩ hR]; exact hi)]
    simp [rotatePiece]
  simp only [get2, hrow]
  rw [List.getD_eq_getElem ((m.map fun row => row.getD i 0).reverse) 0
      (show j < ((m.map fun row => row.getD i 0).reverse).length by simpa [hmR] using hj),
    List.getD_eq_getElem m [] (show R - 1 - j < m.length by omega)]
  simp only [List.getElem_reverse, List.length_map, List.getElem_map, hmR]

lemma rect_ext {R C : Nat} {a b : List (List Nat)}
    (ha : Rect R C a) (hb : Rect R C b)
    (h : ∀ i, i < R → ∀ j, j < C → get2 a i j = get2 b i j) : a = b := by
  apply List.ext_getElem (ha.1.trans hb.1.symm)
  intro n h1 h2
  apply List.ext_getElem
  · rw [ha.2 _ (List.getElem_mem h1), hb.2 _ (List.getElem_mem h2)]
  · intro k hk1 hk2
    have hn : n < R := ha.1 ▸ h1
    have hkC : k < C := by
      rw [ha.2 _ (List.getElem_mem h1)] at hk1
      exact hk1
    have heq := h n hn k hkC
    rw [get2, get2, List.getD_eq_getElem _ _ h1, List.getD_eq_getElem _ _ h2,
      List.getD_eq_getElem _ _ hk1, List.getD_eq_getElem _ _ hk2] at heq
    exact heq

/-- C6: for every rectangular shape matrix of `R ≥ 1` rows and `C ≥ 1`
columns, four applications of the 90°-clockwise `rotatePiece` give back the
original matrix. -/
theorem rotatePiece_four_times (m : List (List Nat)) (R C : Nat)
    (hR : 1 ≤ R) (hC : 1 ≤ C) (h : Rect R C m) :
    rotatePiece (rotatePiece (rotatePiece (rotatePiece m))) = m := by
  have h1 := rotatePiece_rect h hR
  have h2 := rotatePiece_rect h1 hC
  have h3 := rotatePiece_rect h2 hR
  have h4 := rotatePiece_rect h3 hC
  apply rect_ext h4 h
  intro i hi j hj
  rw [rotatePiece_get2 h3 hC hi hj,
    rotatePiece_get2 h2 hR (show C - 1 - j < C by omega) hi,
    rotatePiece_get2 h1 hC (show R - 1 - i < R by omega) (show C - 1 - j < C by omega),
    rotatePiece_get2 h hR (show C - 1 - (C - 1 - j) < C by omega)
      (show R - 1 - i < R by omega),
    show R - 1 - (R - 1 - i) = i by omega, show C - 1 - (C - 1 - j) = j by omega]

theorem rotatePiece_four_times_witness :
    rotatePiece (rotatePiece (rotatePiece (rotatePiece (tetrominoShape .S)))) =
      tetrominoShape .S :=
  rotatePiece_four_times (tetrominoShape .S) 3 3 (by decide) (by decide) (by decide)

lemma padGo_eq (n : Nat) (row : List Nat) (fuel : Nat) :
    ∀ b : Board, n - b.length ≤ fuel →
      padGo fuel n row b = List.replicate (n - b.length) row ++ b := by
  induction fuel with
  | zero =>
    intro b hb
    have h0 : n - b.length = 0 := by omega
    simp [padGo, h0]
  | succ fuel ih =>
    intro b hb
    simp only [padGo]
    by_cases h : b.length < n
    · rw [if_pos h, ih (row :: b) (by simp; omega)]
      have hn : n - b.length = (n - (row :: b).length) + 1 := by simp; omega
      rw [hn, List.replicate_succ']
      simp
    · rw [if_neg h]
      have h0 : n - b.length = 0 := by omega
      simp [h0]

lemma padTo_eq (n : Nat) (row : List Nat) (b : Board) :
    padTo n row b = List.replicate (n - b.length) row ++ b :=
  padGo_eq n row n b (Nat.sub_le n b.length)

/-- C1: for a 20×10 board, `clearLines` returns exactly 20 rows; the count
is the number of complete rows (those with every cell filled), between 0
and 20; and the result is exactly that many fresh empty rows on top of the
incomplete rows, kept in their original relative order. -/
theorem clearLines_spec (board : Board)
    (hH : board.length = 20) (hW : ∀ row ∈ board, row.length = 10) :
    (clearLines board).1.length = 20 ∧
    (clearLines board).2 =
      (board.filter fun row => row.all fun cell => !(cell == 0)).length ∧
    (clearLines board).2 ≤ 20 ∧
    (clearLines board).1 =
      List.replicate (clearLines board).2 (List.replicate 10 0) ++
        board.filter fun row => row.any fun cell => cell == 0 := by
  have hkept : (board.filter fun row => row.any fun cell => cell == 0).length ≤ 20 :=
    le_of_le_of_eq (List.length_filter_le _ board) hH
  have hsplit := List.length_eq_length_filter_add (l := board)
    (fun row => row.any fun cell => cell == 0)
  have hnot : (board.filter fun row => !(row.any fun cell => cell == 0)) =
      board.filter fun row => row.all fun cell => !(cell == 0) := by
    have hfun : (fun row : List Nat => !(row.any fun cell => cell == 0)) =
        fun row : List Nat => row.all fun cell => !(cell == 0) := by
      funext row
      rw [List.all_eq_not_any_not]
      simp
    rw [hfun]
  simp only [clearLines, BOARD_HEIGHT, BOARD_WIDTH, padTo_eq]
  refine ⟨?_, ?_, ?_, trivial⟩
  · simp only [List.length_append, List.length_replicate]
    omega
  · rw [← hnot]
    omega
  · omega

theorem clearLines_spec_witness :
    (clearLines landingBoard).1.length = 20 ∧
    (clearLines landingBoard).2 =
      (landingBoard.filter fun row => row.all fun cell => !(cell == 0)).length ∧
    (clearLines landingBoard).2 ≤ 20 ∧
    (clearLines landingBoard).1 =
      List.replicate (clearLines landingBoard).2 (List.replicate 10 0) ++
        landingBoard.filter fun row => row.any fun cell => cell == 0 :=
  clearLines_spec landingBoard (by decide) (by decide)

lemma getD_set_list (b : Board) (y : Nat) (r : List Nat) (i : Nat) :
    (b.set y r).getD i [] = if y = i ∧ i < b.length then r else b.getD i [] := by
  rw [List.getD_eq_getElem?_getD, List.getD_eq_getElem?_getD, List.getElem?_set]
  by_cases h1 : y = i
  · subst h1
    by_cases h2 : y < b.length
    · simp [h2]
    · rw [if_pos rfl, if_neg h2, if_neg (by tauto),
        List.getElem?_eq_none (by omega)]
  · simp [h1]

lemma setCell_length (b : Board) (y : Nat) (x : Int) (v : Nat) :
    (setCell b y x v).length = b.length := by
  unfold setCell
  split <;> simp

lemma setCell_rowlen (b : Board) (y : Nat) (x : Int) (v : Nat) (i : Nat) :
    ((setCell b y x v).getD i []).length = (b.getD i []).length := by
  unfold setCell
  split
  · rw [getD_set_list]
    split
    · rename_i h
      rw [← h.1]
      simp
    · rfl
  · rfl

lemma get2_setCell (b : Board) (y : Nat) (x : Int) (v : Nat) (i j : Nat)
    (hi : i < b.length) (hj : j < (b.getD i []).length) :
    get2 (setCell b y x v) i j =
      if y = i ∧ x = (j : Int) then v else get2 b i j := by
  unfold setCell get2
  by_cases hx : 0 ≤ x
  · rw [if_pos hx, getD_set_list]
    by_cases h1 : y = i
    · subst h1
      rw [if_pos ⟨rfl, hi⟩]
      by_cases h2 : x.toNat = j
      · rw [if_pos ⟨rfl, by omega⟩,
          List.getD_eq_getElem _ _ (show j < ((b.getD y []).set x.toNat v).length by
            simpa using hj),
          List.getElem_set, if_pos h2]
      · rw [if_neg (by rintro ⟨-, rfl⟩; omega),
          List.getD_eq_getElem _ _ (show j < ((b.getD y []).set x.toNat v).length by
            simpa using hj),
          List.getElem_set, if_neg h2, List.getD_eq_getElem _ _ hj]
    · rw [if_neg (by tauto), if_neg (by tauto)]
  · rw [if_neg hx, if_neg (by rintro ⟨-, rfl⟩; omega)]

lemma placeStep_length (pos : Int × Int) (shape : List (List Nat)) (b : Board)
    (yx : Nat × Nat) : (placeStep pos shape b yx).length = b.length := by
  simp only [placeStep]
  split
  · split
    · exact setCell_length _ _ _ _
    · rfl
  · rfl

lemma placeStep_rowlen (pos : Int × Int) (shape : List (List Nat)) (b : Board)
    (yx : Nat × Nat) (i : Nat) :
    ((placeStep pos shape b yx).getD i []).length = (b.getD i []).length := by
  simp only [placeStep]
  split
  · split
    · exact setCell_rowlen _ _ _ _ _
    · rfl
  · rfl

lemma get2_placeStep (pos : Int × Int) (shape : List (List Nat)) (b : Board)
    (yx : Nat × Nat) (i j : Nat)
    (hi : i < b.length) (hj : j < (b.getD i []).length) :
    get2 (placeStep pos shape b yx) i j =
      if (shape.getD yx.1 []).getD yx.2 0 ≠ 0 ∧
          pos.2 + (yx.1 : Int) = (i : Int) ∧ pos.1 + (yx.2 : Int) = (j : Int)
      then 1 else get2 b i j := by
  simp only [placeStep]
  by_cases hc : (shape.getD yx.1 []).getD yx.2 0 ≠ 0
  · rw [if_pos hc]
    by_cases hy : (0 : Int) ≤ pos.2 + (yx.1 : Int)
    · rw [if_pos hy, get2_setCell b _ _ 1 i j hi hj]
      exact if_congr ⟨fun ⟨h1, h2⟩ => ⟨hc, by omega, h2⟩, fun ⟨_, h1, h2⟩ => ⟨by omega, h2⟩⟩
        rfl rfl
    · rw [if_neg hy, if_neg (by rintro ⟨-, h1, -⟩; omega)]
  · rw [if_neg hc, if_neg (by tauto)]

lemma get2_foldl_placeStep (pos : Int × Int) (shape : List (List Nat))
    (cs : List (Nat × Nat)) :
    ∀ (b : Board) (i j : Nat), i < b.length → j < (b.getD i []).length →
      get2 (cs.foldl (placeStep pos shape) b) i j =
        if ∃ yx ∈ cs, (shape.getD yx.1 []).getD yx.2 0 ≠ 0 ∧
              pos.2 + (yx.1 : Int) = (i : Int) ∧ pos.1 + (yx.2 : Int) = (j : Int)
        then 1 else get2 b i j := by
  induction cs with
  | nil =>
    intro b i j hi hj
    simp
  | cons c cs ih =>
    intro b i j hi hj
    rw [List.foldl_cons,
      ih (placeStep pos shape b c) i j
        (by rw [placeStep_length]; exact hi)
        (by rw [placeStep_rowlen]; exact hj),
      get2_placeStep pos shape b c i j hi hj]
    simp only [List.exists_mem_cons_iff]
    by_cases h1 : ∃ yx ∈ cs, (shape.getD yx.1 []).getD yx.2 0 ≠ 0 ∧
        pos.2 + (yx.1 : Int) = (i : Int) ∧ pos.1 + (yx.2 : Int) = (j : Int)
    · rw [if_pos h1, if_pos (Or.inr h1)]
    · by_cases h2 : (shape.getD c.1 []).getD c.2 0 ≠ 0 ∧
          pos.2 + (c.1 : Int) = (i : Int) ∧ pos.1 + (c.2 : Int) = (j : Int)
      · rw [if_neg h1, if_pos h2, if_pos (Or.inl h2)]
      · rw [if_neg h1, if_neg h2, if_neg (fun h => h.elim h2 h1)]

lemma foldl_flatMap {α β γ : Type} (l : List α) (g : α → List β) (f : γ → β → γ) :
    ∀ init : γ,
      l.foldl (fun acc a => (g a).foldl f acc) init = (l.flatMap g).foldl f init := by
  induction l with
  | nil => intro init; rfl
  | cons a l ih =>
    intro init
    rw [List.foldl_cons, ih ((g a).foldl f init), List.flatMap_cons, List.foldl_append]

lemma placePiece_eq_foldl (board : Board) (piece : Piece) :
    placePiece board piece =
      (pieceCoords piece.shape).foldl (placeStep piece.position piece.shape) board := by
  unfold placePiece pieceCoords
  rw [← foldl_flatMap]
  have hmap : ∀ (b : Board) (y : Nat),
      ((List.range ((piece.shape.getD y []).length)).map fun x => (y, x)).foldl
          (placeStep piece.position piece.shape) b =
        (List.range ((piece.shape.getD y []).length)).foldl
          (fun b2 x => placeStep piece.position piece.shape b2 (y, x)) b := by
    intro b y
    rw [List.foldl_map]
  simp only [hmap]

lemma mem_pieceCoords {shape : List (List Nat)} {yx : Nat × Nat} :
    yx ∈ pieceCoords shape ↔
      yx.1 < shape.length ∧ yx.2 < ((shape.getD yx.1 []).length) := by
  obtain ⟨y, x⟩ := yx
  simp only [pieceCoords, List.mem_flatMap, List.mem_map, List.mem_range,
    Prod.mk.injEq]
  constructor
  · rintro ⟨y1, hy1, x1, hx1, rfl, rfl⟩
    exact ⟨hy1, hx1⟩
  · rintro ⟨h1, h2⟩
    exact ⟨y, h1, x, h2, rfl, rfl⟩

/-- C3: `placePiece` marks as filled (value 1) exactly those board cells
onto which a set shape cell maps with a nonnegative mapped row — cells of
the shape whose mapped row is negative are dropped — and every other board
cell keeps its previous value. -/
theorem placePiece_spec (board : Board) (piece : Piece) (i j : Nat)
    (hi : i < board.length) (hj : j < (board.getD i []).length) :
    get2 (placePiece board piece) i j =
      if ∃ y < piece.shape.length, ∃ x < ((piece.shape.getD y []).length),
            (piece.shape.getD y []).getD x 0 ≠ 0 ∧
            piece.position.2 + (y : Int) = (i : Int) ∧
            piece.position.1 + (x : Int) = (j : Int)
      then 1 else get2 board i j := by
  rw [placePiece_eq_foldl,
    get2_foldl_placeStep piece.position piece.shape (pieceCoords piece.shape) board i j hi hj]
  refine if_congr ?_ rfl rfl
  constructor
  · rintro ⟨yx, hmem, hcell, hy, hx⟩
    rw [mem_pieceCoords] at hmem
    exact ⟨yx.1, hmem.1, yx.2, hmem.2, hcell, hy, hx⟩
  · rintro ⟨y, hy, x, hx, hcell, hyy, hxx⟩
    exact ⟨(y, x), mem_pieceCoords.mpr ⟨hy, hx⟩, hcell, hyy, hxx⟩

theorem placePiece_spec_witness :
    get2 (placePiece EMPTY_BOARD
        { shape := [[1,1],[1,1]], color := "#f0f000", position := ((4 : Int), (18 : Int)) }) 18 4 =
      if ∃ y < ([[1,1],[1,1]] : List (List Nat)).length,
            ∃ x < ((([[1,1],[1,1]] : List (List Nat)).getD y []).length),
            (([[1,1],[1,1]] : List (List Nat)).getD y []).getD x 0 ≠ 0 ∧
            (18 : Int) + (y : Int) = (18 : Int) ∧ (4 : Int) + (x : Int) = (4 : Int)
      then 1 else get2 EMPTY_BOARD 18 4 :=
  placePiece_spec EMPTY_BOARD
    { shape := [[1,1],[1,1]], color := "#f0f000", position := ((4 : Int), (18 : Int)) }
    18 4 (by decide) (by decide)

end Tetris
